import Mathlib

/-!
Verification of `update_tui.py`: a straight-line Python script that reads one file,
runs `content = re.sub(old_pattern, new_replacement, content, flags=re.MULTILINE)`,
writes the file back and prints a confirmation line.

Every regex metacharacter occurring in `old_pattern` is escaped (`\.` `\{` `\}` `\(`
`\)` `\+` `\\`), and the pattern contains no unescaped `^`, `$` or `.`, so the
`re.MULTILINE` flag is inert and the pattern matches exactly one literal string,
`old_pattern_text` below.  `re.sub` with a string replacement processes backslash
escapes in the replacement template (`\n` becomes a newline character and so on);
`expandRepl` models that processing.  Substitution itself is leftmost, non-overlapping
replacement of every occurrence, modelled by `subLit`.

The surrounding script (read, substitute, write, print, and the abort behaviour of a
raised exception) is modelled as a list of primitive operations `scriptOps` executed
by a small interpreter `run` over a state `St` holding the disk content, the `content`
variable, the console, the performed-operation trace and the pending error.
-/

namespace UpdateTui

/-- The literal text denoted by the regular expression `old_pattern` of
`update_tui.py` (the regex with its escapes removed): since every metacharacter in
the source pattern is escaped, the regex matches exactly this string.  The source
regex `\\n` (backslash backslash n) matches the two characters backslash, `n`.
Lines are separated by newline characters; `\x7b` and `\x7d` are the brace
characters of the Go source text. -/
def old_pattern_text : String :=
  String.intercalate "\n"
    [ "\t\tfor idx, task := range m.backlogTasks \x7b",
      "\t\t\tvar taskLine string",
      "\t\t\tif m.selectedItemType == SelectBacklog && idx == m.selectedBacklogIdx \x7b",
      "\t\t\t\ttaskLine = fmt.Sprintf(\"→ %s %s\", task.ID, task.Title)",
      "\t\t\t\ts += selectedTrackStyle.Render(taskLine) + \"\\n\"",
      "\t\t\t\x7d else \x7b",
      "\t\t\t\ttaskLine = fmt.Sprintf(\"  %s %s\", task.ID, task.Title)",
      "\t\t\t\ts += trackItemStyle.Render(taskLine) + \"\\n\"",
      "\t\t\t\x7d",
      "\t\t\x7d" ]

/-- The Python string value of `new_replacement` in `update_tui.py`.  In the Python
triple-quoted literal, `\\n` denotes the two characters backslash, `n`, which is what
this string contains at the corresponding places. -/
def new_replacement : String :=
  String.intercalate "\n"
    [ "\t\tfor idx, task := range m.backlogTasks \x7b",
      "\t\t\t// Get track information for display",
      "\t\t\ttrackInfo := \"\"",
      "\t\t\tif task.TrackID != \"\" \x7b",
      "\t\t\t\ttrack, err := m.repository.GetTrack(m.ctx, task.TrackID)",
      "\t\t\t\tif err == nil && track != nil \x7b",
      "\t\t\t\t\ttrackInfo = fmt.Sprintf(\" [%s]\", track.ID)",
      "\t\t\t\t\x7d",
      "\t\t\t\x7d",
      "",
      "\t\t\tvar taskLine string",
      "\t\t\tif m.selectedItemType == SelectBacklog && idx == m.selectedBacklogIdx \x7b",
      "\t\t\t\ttaskLine = fmt.Sprintf(\"→ %s %s%s\", task.ID, task.Title, trackInfo)",
      "\t\t\t\ts += selectedTrackStyle.Render(taskLine) + \"\\n\"",
      "\t\t\t\x7d else \x7b",
      "\t\t\t\ttaskLine = fmt.Sprintf(\"  %s %s%s\", task.ID, task.Title, trackInfo)",
      "\t\t\t\ts += trackItemStyle.Render(taskLine) + \"\\n\"",
      "\t\t\t\x7d",
      "\t\t\x7d" ]

/-- Python `re.sub` template processing of a string replacement: backslash escapes in
the replacement are interpreted (`\n` newline, `\t` tab, `\r` carriage return, `\\`
backslash); an unrecognised escape of a non-letter is left unchanged.  Group
references (`\1`, `\g<...>`) cannot arise here: the source pattern contains no
groups and `new_replacement` contains no digit escapes — its only escapes are `\n`. -/
def expandRepl : List Char → List Char
  | [] => []
  | '\\' :: c :: rest =>
    if c = 'n' then '\n' :: expandRepl rest
    else if c = 't' then '\t' :: expandRepl rest
    else if c = 'r' then '\r' :: expandRepl rest
    else if c = '\\' then '\\' :: expandRepl rest
    else '\\' :: c :: expandRepl rest
  | c :: rest => c :: expandRepl rest

/-- Fuel-indexed scanner realising `re.sub` substitution for a pattern that matches
exactly the literal string `pat`: scan the content left to right and replace each
leftmost, non-overlapping occurrence of `pat` by `rep`.  The fuel only forces
structural recursion; the scan consumes at least one character per step, so with
fuel at least the content length (as in `subLit` below) the `0, s` arm is never
taken for nonempty `s`.  (The guard `pat ≠ []` is inert for the script, whose
pattern is non-empty.) -/
def subLitF (pat rep : List Char) : Nat → List Char → List Char
  | _, [] => []
  | 0, s => s
  | fuel + 1, c :: cs =>
    if pat ≠ [] ∧ pat.isPrefixOf (c :: cs) = true then
      rep ++ subLitF pat rep fuel ((c :: cs).drop pat.length)
    else
      c :: subLitF pat rep fuel cs

/-- `re.sub` literal substitution: replace every leftmost non-overlapping occurrence
of `pat` in `s` by `rep`. -/
def subLit (pat rep s : List Char) : List Char := subLitF pat rep s.length s

/-- Whether `pat` matches `s` at offset `i`: plain character-by-character comparison
of `pat` against the characters of `s` from position `i` on. -/
def occursAt (pat s : List Char) (i : Nat) : Bool := pat.isPrefixOf (s.drop i)

/-- The number of offsets of `s` at which `pat` matches. -/
def occCount (pat s : List Char) : Nat :=
  ((List.range (s.length + 1)).filter (occursAt pat s)).length

/-- Line 42 of the script:
`content = re.sub(old_pattern, new_replacement, content, flags=re.MULTILINE)`.
All occurrences of the literal pattern are replaced by the escape-expanded
replacement template. -/
def rewriteContent (content : String) : String :=
  ⟨subLit old_pattern_text.data (expandRepl new_replacement.data) content.data⟩

/-- Spec-side description, following the spec's invariant wording: `out` is `s` with
every (leftmost, non-overlapping) occurrence of `pat` replaced by `rep` and all
content outside the occurrences unchanged; when `pat` occurs nowhere, `out = s`.
The two constructors are exactly the spec's two allowed outcomes. -/
inductive ReplacesEvery (pat rep : List Char) : List Char → List Char → Prop where
  | noMatch (s : List Char) (h : occCount pat s = 0) : ReplacesEvery pat rep s s
  | here (pre suf out : List Char)
      (hleft : ∀ i, i < pre.length → occursAt pat (pre ++ pat ++ suf) i = false)
      (hrest : ReplacesEvery pat rep suf out) :
      ReplacesEvery pat rep (pre ++ pat ++ suf) (pre ++ rep ++ out)

/-! ### The script around the substitution

`update_tui.py` is a straight-line script: open/read (lines 5-7), `re.sub` (line 42,
which first compiles the pattern, raising on a syntax error), open/write (lines
45-46), print (line 48).  A raised exception aborts the remainder.  The script's own
pattern is a fixed, valid regex; the Boolean handed to `Op.subst` stands for whether
the pattern compiles, so that the spec's invalid-matcher hypotheticals can be
examined against the script's operation order. -/

/-- The primitive effects the script can perform, in source order. -/
inductive Op where
  | readF : Op
  | subst : Bool → Op
  | writeF : Op
  | printS : String → Op
deriving DecidableEq

/-- The error classes the script can hit: `open(path, 'r')` on a missing path
raises `FileNotFoundError`; `re.sub` on an invalid pattern raises `re.error`
(a pattern-syntax error). -/
inductive ErrKind where
  | notFound : ErrKind
  | badPattern : ErrKind
deriving DecidableEq

/-- Machine state: the disk content at the script's target path (`none` = no file),
the script's `content` variable, the console lines printed so far, the operations
performed so far, and the pending raised exception if any. -/
structure St where
  disk : Option String
  mem : String
  console : List String
  trace : List Op
  err : Option ErrKind
deriving DecidableEq

/-- One primitive step.  `readF` on a missing file raises `notFound` (mode `'r'`
never creates a file); `subst false` raises the pattern-syntax error of `re.compile`;
`subst true` performs line 42's substitution on the `content` variable; `writeF`
overwrites the disk with `content` (creating the file if absent); `printS` appends a
console line. -/
def step (op : Op) (s : St) : St :=
  match op with
  | .readF =>
    match s.disk with
    | none => { s with trace := s.trace ++ [Op.readF], err := some ErrKind.notFound }
    | some d => { s with mem := d, trace := s.trace ++ [Op.readF] }
  | .subst ok =>
    if ok then
      { s with mem := rewriteContent s.mem, trace := s.trace ++ [Op.subst ok] }
    else
      { s with trace := s.trace ++ [Op.subst ok], err := some ErrKind.badPattern }
  | .writeF => { s with disk := some s.mem, trace := s.trace ++ [Op.writeF] }
  | .printS m => { s with console := s.console ++ [m], trace := s.trace ++ [Op.printS m] }

/-- Run a straight-line program; a raised exception aborts the remaining
operations, as an uncaught Python exception does. -/
def run (ops : List Op) (s : St) : St :=
  match ops with
  | [] => s
  | op :: rest => if s.err.isSome then s else run rest (step op s)

/-- Line 48 of the script. -/
def successMsg : String := "Updated TUI models successfully"

/-- The script's operations in source order: read the file, substitute (the `re.sub`
call first compiles the pattern; `patOk` says whether that succeeds — `true` for the
script's own fixed pattern), write the file back, print the confirmation. -/
def scriptOps (patOk : Bool) : List Op :=
  [Op.readF, Op.subst patOk, Op.writeF, Op.printS successMsg]

/-- Initial state for a run against a disk holding `disk` at the target path. -/
def initSt (disk : Option String) : St :=
  { disk := disk, mem := "", console := [], trace := [], err := none }

/-- A whole run of the script against an initial disk state. -/
def runScript (patOk : Bool) (disk : Option String) : St :=
  run (scriptOps patOk) (initSt disk)

/-- Test fixture for the spec's silent-non-match scenario: the matched block with a
single extra space inside the first line's indentation, so the matcher misses it. -/
def nearMissContent : String :=
  ⟨old_pattern_text.data.take 1 ++ ' ' :: old_pattern_text.data.drop 1⟩

/-! ### Basic facts about the scanner -/

theorem subLitF_nil (pat rep : List Char) (fuel : Nat) : subLitF pat rep fuel [] = [] := by
  cases fuel <;> rfl

theorem subLitF_congr (pat rep : List Char) :
    ∀ f₁ f₂ s, s.length ≤ f₁ → s.length ≤ f₂ →
      subLitF pat rep f₁ s = subLitF pat rep f₂ s := by
  intro f₁
  induction f₁ with
  | zero =>
    intro f₂ s h1 _
    have hs : s = [] := List.length_eq_zero.mp (Nat.le_zero.mp h1)
    subst hs
    rw [subLitF_nil, subLitF_nil]
  | succ f ih =>
    intro f₂ s h1 h2
    cases s with
    | nil => rw [subLitF_nil, subLitF_nil]
    | cons c cs =>
      cases f₂ with
      | zero => simp at h2
      | succ f₂ =>
        simp only [subLitF]
        by_cases hc : pat ≠ [] ∧ pat.isPrefixOf (c :: cs) = true
        · rw [if_pos hc, if_pos hc]
          have hlen : ((c :: cs).drop pat.length).length ≤ f := by
            have hp : 0 < pat.length := List.length_pos.mpr hc.1
            simp only [List.length_drop, List.length_cons]
            simp only [List.length_cons] at h1
            omega
          have hlen₂ : ((c :: cs).drop pat.length).length ≤ f₂ := by
            have hp : 0 < pat.length := List.length_pos.mpr hc.1
            simp only [List.length_drop, List.length_cons]
            simp only [List.length_cons] at h2
            omega
          rw [ih f₂ _ hlen hlen₂]
        · rw [if_neg hc, if_neg hc]
          have hlen : cs.length ≤ f := by simp only [List.length_cons] at h1; omega
          have hlen₂ : cs.length ≤ f₂ := by simp only [List.length_cons] at h2; omega
          rw [ih f₂ _ hlen hlen₂]

theorem subLit_nil (pat rep : List Char) : subLit pat rep [] = [] := rfl

theorem subLit_cons_pos (pat rep : List Char) (c : Char) (cs : List Char)
    (hp : pat ≠ []) (h : pat.isPrefixOf (c :: cs) = true) :
    subLit pat rep (c :: cs) = rep ++ subLit pat rep ((c :: cs).drop pat.length) := by
  show subLitF pat rep (cs.length + 1) (c :: cs) = _
  simp only [subLitF, if_pos (And.intro hp h)]
  congr 1
  apply subLitF_congr
  · have hp1 : 0 < pat.length := List.length_pos.mpr hp
    simp only [List.length_drop, List.length_cons]
    omega
  · exact Nat.le_refl _

theorem subLit_cons_neg (pat rep : List Char) (c : Char) (cs : List Char)
    (h : ¬(pat ≠ [] ∧ pat.isPrefixOf (c :: cs) = true)) :
    subLit pat rep (c :: cs) = c :: subLit pat rep cs := by
  show subLitF pat rep (cs.length + 1) (c :: cs) = _
  simp only [subLitF, if_neg h]
  rfl

/-- `isPrefixOf` on characters is exactly "the pattern's characters appear verbatim
from the front": no character (in particular no line boundary) is special. -/
theorem isPrefixOf_eq_true_iff (pat s : List Char) :
    pat.isPrefixOf s = true ↔ ∃ t, s = pat ++ t := by
  induction pat generalizing s with
  | nil => simp [List.isPrefixOf]
  | cons p ps ih =>
    cases s with
    | nil =>
      simp only [List.isPrefixOf, List.cons_append]
      constructor
      · intro h; cases h
      · rintro ⟨t, h⟩; cases h
    | cons c cs =>
      simp only [List.isPrefixOf, Bool.and_eq_true, beq_iff_eq, ih, List.cons_append]
      constructor
      · rintro ⟨rfl, t, rfl⟩; exact ⟨t, rfl⟩
      · rintro ⟨t, h⟩
        injection h with h1 h2
        exact ⟨h1.symm, t, h2⟩

theorem occursAt_zero (pat s : List Char) : occursAt pat s 0 = pat.isPrefixOf s := by
  simp [occursAt]

theorem occursAt_succ_cons (pat : List Char) (c : Char) (cs : List Char) (i : Nat) :
    occursAt pat (c :: cs) (i + 1) = occursAt pat cs i := by
  simp [occursAt]

/-- An offset where a non-empty pattern matches lies strictly inside the string. -/
theorem occursAt_lt_length (pat s : List Char) (i : Nat) (hp : pat ≠ [])
    (h : occursAt pat s i = true) : i < s.length := by
  obtain ⟨t, ht⟩ := (isPrefixOf_eq_true_iff pat (s.drop i)).mp h
  have hlen : s.length - i = pat.length + t.length := by
    have := congrArg List.length ht
    simpa [List.length_drop] using this
  have hp1 : 0 < pat.length := List.length_pos.mpr hp
  omega

theorem occCount_eq_zero_iff (pat s : List Char) :
    occCount pat s = 0 ↔ ∀ i, occursAt pat s i = false := by
  unfold occCount
  rw [List.length_eq_zero, List.filter_eq_nil_iff]
  constructor
  · intro h i
    by_cases hi : i < s.length + 1
    · have := h i (List.mem_range.mpr hi)
      simpa using this
    · have hp : pat ≠ [] := by
        intro hpat
        subst hpat
        exact h 0 (List.mem_range.mpr (Nat.succ_pos _)) (by simp [occursAt, List.isPrefixOf])
      have hdrop : s.drop i = [] := by
        apply List.drop_eq_nil_of_le
        omega
      cases hpat : pat with
      | nil => exact absurd hpat hp
      | cons p ps =>
        simp only [occursAt, hdrop, hpat, List.isPrefixOf]
  · intro h i _
    simp [h i]

theorem subLit_of_noOcc (pat rep s : List Char) (h : ∀ i, occursAt pat s i = false) :
    subLit pat rep s = s := by
  induction s with
  | nil => exact subLit_nil pat rep
  | cons c cs ih =>
    have h0 : pat.isPrefixOf (c :: cs) = false := by
      have := h 0
      simpa [occursAt] using this
    rw [subLit_cons_neg pat rep c cs (by simp [h0])]
    have : subLit pat rep cs = cs := by
      apply ih
      intro i
      have := h (i + 1)
      simpa [occursAt_succ_cons] using this
    rw [this]

/-! ### Decomposition of the scan around an occurrence -/

/-- A non-empty pattern never occurs in the empty content. -/
theorem occCount_nil (pat : List Char) (hp : pat ≠ []) : occCount pat [] = 0 := by
  rw [occCount_eq_zero_iff]
  intro i
  cases hpat : pat with
  | nil => exact absurd hpat hp
  | cons p ps => simp [occursAt, List.isPrefixOf]

theorem occursAt_append_offset (pat l s : List Char) (k : Nat) :
    occursAt pat (l ++ s) (l.length + k) = occursAt pat s k := by
  unfold occursAt
  congr 1
  rw [← List.drop_drop, List.drop_left]

/-- If the scan reaches a leftmost occurrence of `pat` (no occurrence starts inside
`pre`), it copies `pre`, emits `rep` and resumes after the occurrence. -/
theorem subLit_append (pat rep : List Char) (hp : pat ≠ []) :
    ∀ pre suf, (∀ i, i < pre.length → occursAt pat (pre ++ (pat ++ suf)) i = false) →
      subLit pat rep (pre ++ (pat ++ suf)) = pre ++ (rep ++ subLit pat rep suf) := by
  intro pre
  induction pre with
  | nil =>
    intro suf _
    obtain ⟨p, ps, rfl⟩ : ∃ p ps, pat = p :: ps := by
      cases pat with
      | nil => exact absurd rfl hp
      | cons p ps => exact ⟨p, ps, rfl⟩
    have hpre : (p :: ps).isPrefixOf ((p :: ps) ++ suf) = true :=
      (isPrefixOf_eq_true_iff _ _).mpr ⟨suf, rfl⟩
    simp only [List.nil_append]
    rw [List.cons_append] at hpre ⊢
    rw [subLit_cons_pos _ rep _ _ hp (by rw [← List.cons_append]; exact hpre)]
    rw [← List.cons_append, List.drop_left]
  | cons c pre ih =>
    intro suf h
    have h0 : pat.isPrefixOf (c :: (pre ++ (pat ++ suf))) = false := by
      have := h 0 (by simp)
      simpa [occursAt] using this
    rw [List.cons_append]
    rw [subLit_cons_neg pat rep _ _ (by simp [h0])]
    rw [ih suf (fun i hi => by
      have := h (i + 1) (by simpa using Nat.succ_lt_succ hi)
      rw [List.cons_append, occursAt_succ_cons] at this
      exact this)]
    simp

theorem occCount_pos_exists (pat s : List Char) (h : occCount pat s ≠ 0) :
    ∃ i, occursAt pat s i = true := by
  by_contra hc
  push_neg at hc
  refine h ((occCount_eq_zero_iff pat s).mpr fun i => ?_)
  cases hb : occursAt pat s i with
  | false => rfl
  | true => exact absurd hb (hc i)

theorem occCount_one_elim (pat s : List Char) (hp : pat ≠ []) (h : occCount pat s = 1) :
    ∃ i, occursAt pat s i = true ∧ ∀ j, occursAt pat s j = true → j = i := by
  unfold occCount at h
  obtain ⟨i, hfil⟩ := List.length_eq_one.mp h
  have hi : occursAt pat s i = true := by
    have hmem : i ∈ List.filter (occursAt pat s) (List.range (s.length + 1)) := by
      rw [hfil]; exact List.mem_singleton.mpr rfl
    exact (List.mem_filter.mp hmem).2
  refine ⟨i, hi, fun j hj => ?_⟩
  have hjlt : j < s.length := occursAt_lt_length pat s j hp hj
  have hmem : j ∈ List.filter (occursAt pat s) (List.range (s.length + 1)) :=
    List.mem_filter.mpr ⟨List.mem_range.mpr (by omega), hj⟩
  rw [hfil] at hmem
  simpa using hmem

/-- The leftmost-occurrence decomposition of a scan, given an occurrence at `i`
that is leftmost.  `pre` is the copied prefix, `t` the remainder after the match. -/
theorem subLit_decomp (pat rep s : List Char) (i : Nat) (hp : pat ≠ [])
    (hi : occursAt pat s i = true)
    (hmin : ∀ j, j < i → occursAt pat s j = false) :
    s = s.take i ++ pat ++ s.drop (i + pat.length) ∧
      subLit pat rep s = s.take i ++ rep ++ subLit pat rep (s.drop (i + pat.length)) := by
  obtain ⟨t, ht⟩ := (isPrefixOf_eq_true_iff pat (s.drop i)).mp hi
  have hilt : i < s.length := occursAt_lt_length pat s i hp hi
  have htake : (s.take i).length = i := by
    rw [List.length_take]
    omega
  have htail : s.drop (i + pat.length) = t := by
    have : (s.drop i).drop pat.length = t := by rw [ht, List.drop_left]
    rw [← this, List.drop_drop]
  have hdec : s = s.take i ++ (pat ++ t) := by
    conv_lhs => rw [← List.take_append_drop i s]
    rw [ht]
  constructor
  · rw [htail, List.append_assoc]
    exact hdec
  · have hleft : ∀ j, j < (s.take i).length →
        occursAt pat (s.take i ++ (pat ++ t)) j = false := by
      intro j hj
      rw [← hdec]
      exact hmin j (by omega)
    rw [htail, List.append_assoc]
    conv_lhs => rw [hdec]
    exact subLit_append pat rep hp (s.take i) t hleft

/-- A content in which a non-empty pattern occurs exactly once is `pre ++ pat ++ suf`,
and the scan yields `pre ++ rep ++ suf`. -/
theorem subLit_of_unique_occ (pat rep s : List Char) (hp : pat ≠ [])
    (h : occCount pat s = 1) :
    ∃ pre suf, s = pre ++ pat ++ suf ∧ subLit pat rep s = pre ++ rep ++ suf := by
  obtain ⟨i, hi, huniq⟩ := occCount_one_elim pat s hp h
  have hmin : ∀ j, j < i → occursAt pat s j = false := by
    intro j hj
    cases hb : occursAt pat s j with
    | false => rfl
    | true => exact absurd (huniq j hb) (by omega)
  obtain ⟨hdec, hscan⟩ := subLit_decomp pat rep s i hp hi hmin
  refine ⟨s.take i, s.drop (i + pat.length), hdec, ?_⟩
  rw [hscan]
  have hsuf : subLit pat rep (s.drop (i + pat.length)) = s.drop (i + pat.length) := by
    apply subLit_of_noOcc
    intro k
    cases hb : occursAt pat (s.drop (i + pat.length)) k with
    | false => rfl
    | true =>
      exfalso
      have hlift : occursAt pat s (i + pat.length + k) = true := by
        unfold occursAt at hb ⊢
        rw [List.drop_drop] at hb
        exact hb
      have := huniq _ hlift
      have hp1 : 0 < pat.length := List.length_pos.mpr hp
      omega
  rw [hsuf]

/-- The scan always produces an output related to its input by `ReplacesEvery`:
either the pattern occurs nowhere and the content is returned unchanged, or every
leftmost non-overlapping occurrence is replaced and everything else is copied. -/
theorem subLit_replacesEvery (pat rep : List Char) (hp : pat ≠ []) :
    ∀ s, ReplacesEvery pat rep s (subLit pat rep s) := by
  have H : ∀ n s, s.length ≤ n → ReplacesEvery pat rep s (subLit pat rep s) := by
    intro n
    induction n with
    | zero =>
      intro s hs
      have hnil : s = [] := List.length_eq_zero.mp (Nat.le_zero.mp hs)
      subst hnil
      rw [subLit_nil]
      exact ReplacesEvery.noMatch [] (occCount_nil pat hp)
    | succ n ih =>
      intro s hs
      by_cases h0 : occCount pat s = 0
      · rw [subLit_of_noOcc pat rep s ((occCount_eq_zero_iff pat s).mp h0)]
        exact ReplacesEvery.noMatch s h0
      · have hex : ∃ i, occursAt pat s i = true := occCount_pos_exists pat s h0
        have hi : occursAt pat s (Nat.find hex) = true := Nat.find_spec hex
        have hmin : ∀ j, j < Nat.find hex → occursAt pat s j = false := by
          intro j hj
          cases hb : occursAt pat s j with
          | false => rfl
          | true => exact absurd hb (Nat.find_min hex hj)
        obtain ⟨hdec, hscan⟩ := subLit_decomp pat rep s (Nat.find hex) hp hi hmin
        have hp1 : 0 < pat.length := List.length_pos.mpr hp
        have hlen : (s.drop (Nat.find hex + pat.length)).length ≤ n := by
          have hilt : Nat.find hex < s.length := occursAt_lt_length pat s _ hp hi
          rw [List.length_drop]
          omega
        have hleft' : ∀ j, j < (s.take (Nat.find hex)).length →
            occursAt pat (s.take (Nat.find hex) ++ pat ++
              s.drop (Nat.find hex + pat.length)) j = false := by
          intro j hj
          rw [← hdec]
          apply hmin
          have hle : (s.take (Nat.find hex)).length ≤ Nat.find hex := by
            rw [List.length_take]
            exact min_le_left _ _
          omega
        rw [hscan]
        nth_rewrite 1 [hdec]
        exact ReplacesEvery.here _ _ _ hleft' (ih _ hlen)
  exact fun s => H s.length s (Nat.le_refl _)

/-! ### Facts about the whole-script run -/

/-- With its own valid pattern, the script performs read, substitute, write, print
and ends with the substituted content on disk, the confirmation line printed and no
error — regardless of the file's content. -/
theorem runScript_ok (d : String) :
    runScript true (some d) =
      { disk := some (rewriteContent d), mem := rewriteContent d,
        console := [successMsg],
        trace := [Op.readF, Op.subst true, Op.writeF, Op.printS successMsg],
        err := none } := rfl

/-- If the pattern failed to compile, the run would read the file, raise the
pattern-syntax error at the `re.sub` call, and abort: nothing written, nothing
printed, disk unchanged. -/
theorem runScript_badPattern (d : String) :
    runScript false (some d) =
      { disk := some d, mem := d, console := [],
        trace := [Op.readF, Op.subst false],
        err := some ErrKind.badPattern } := rfl

/-- On a missing file the run raises `notFound` at the initial `open` and aborts:
no file is created, nothing is printed, and the pattern is never reached. -/
theorem runScript_missing (patOk : Bool) :
    runScript patOk none =
      { disk := none, mem := "", console := [],
        trace := [Op.readF],
        err := some ErrKind.notFound } := by
  cases patOk <;> rfl

/-- `old_pattern_text` is not the empty string (so the literal-pattern scan's
non-empty-pattern lemmas apply to the script's own pattern). -/
theorem old_pattern_text_ne_nil : old_pattern_text.data ≠ [] := by decide

/-- Contents without an occurrence of the script's pattern pass through line 42
unchanged. -/
theorem rewriteContent_of_noOcc (d : String)
    (h : occCount old_pattern_text.data d.data = 0) : rewriteContent d = d := by
  unfold rewriteContent
  rw [subLit_of_noOcc _ _ _ ((occCount_eq_zero_iff _ _).mp h)]

/-! ### The claims -/

set_option maxRecDepth 100000

/-- Claim C1, as stated, is false on the code: take as file content exactly the
matched block, in which the matcher occurs exactly once (spanning the whole
content, so the claimed output is the replacement text itself).  The substituted
output is not the replacement text: `re.sub` rewrites the replacement's `\n`
escapes into newline characters. -/
theorem c1_counterexample :
    occCount old_pattern_text.data old_pattern_text.data = 1 ∧
    rewriteContent old_pattern_text ≠ new_replacement := by
  exact ⟨by decide, by decide⟩

/-- Claim C1 (amended): for every file content in which the matcher occurs exactly
once, the rewritten content is the original with that one occurrence replaced by
the escape-expanded replacement (the replacement with its backslash escapes
interpreted by `re.sub`, `\n` becoming a newline), and every byte before and after
the occurrence is preserved verbatim. -/
theorem c1_unique_occurrence_replaced (content : String)
    (h : occCount old_pattern_text.data content.data = 1) :
    ∃ pre suf, content.data = pre ++ old_pattern_text.data ++ suf ∧
      (rewriteContent content).data =
        pre ++ expandRepl new_replacement.data ++ suf :=
  subLit_of_unique_occ old_pattern_text.data (expandRepl new_replacement.data)
    content.data old_pattern_text_ne_nil h

/-- Witness for C1 (amended) at the concrete content consisting of exactly the
matched block. -/
theorem c1_unique_occurrence_replaced_witness :
    occCount old_pattern_text.data old_pattern_text.data = 1 ∧
    ∃ pre suf, old_pattern_text.data = pre ++ old_pattern_text.data ++ suf ∧
      (rewriteContent old_pattern_text).data =
        pre ++ expandRepl new_replacement.data ++ suf :=
  ⟨by decide, c1_unique_occurrence_replaced old_pattern_text (by decide)⟩

/-- Claim C2, as stated, is false on the code: on the content that is exactly the
matched block (one occurrence, spanning everything) the on-disk result is neither
byte-identical to the original nor the original with the occurrence replaced by the
replacement — a third outcome, caused by the escape expansion of the replacement. -/
theorem c2_counterexample :
    occCount old_pattern_text.data old_pattern_text.data = 1 ∧
    rewriteContent old_pattern_text ≠ old_pattern_text ∧
    rewriteContent old_pattern_text ≠ new_replacement := by
  exact ⟨by decide, by decide, by decide⟩

/-- Claim C2 (amended): for every input content, the rewritten content is either
byte-identical to the original (exactly when the matcher matches nowhere) or equal
to the original with every one of the non-overlapping occurrences of the matcher
replaced by the escape-expanded replacement, all content outside the occurrences
byte-identical; no third outcome is possible. -/
theorem c2_invariant_expanded (content : String) :
    ReplacesEvery old_pattern_text.data (expandRepl new_replacement.data)
      content.data (rewriteContent content).data ∧
    (occCount old_pattern_text.data content.data = 0 → rewriteContent content = content) :=
  ⟨subLit_replacesEvery old_pattern_text.data (expandRepl new_replacement.data)
      old_pattern_text_ne_nil content.data,
    fun h => rewriteContent_of_noOcc content h⟩

/-- Witness for C2 (amended) at a concrete no-match content. -/
theorem c2_invariant_expanded_witness :
    occCount old_pattern_text.data "hello".data = 0 ∧
    ReplacesEvery old_pattern_text.data (expandRepl new_replacement.data)
      "hello".data (rewriteContent "hello").data ∧
    rewriteContent "hello" = "hello" :=
  ⟨by decide, (c2_invariant_expanded "hello").1,
    (c2_invariant_expanded "hello").2 (by decide)⟩

/-- Claim C3: the code does not insert the replacement literally.  The substituted
output equals the escape-expanded replacement, which differs from the replacement
text: the replacement contains a backslash (from its `\n` sequences) while the
output contains none — `re.sub` reinterpreted the backslash sequences. -/
theorem c3_replacement_reinterpreted :
    (rewriteContent old_pattern_text).data = expandRepl new_replacement.data ∧
    expandRepl new_replacement.data ≠ new_replacement.data ∧
    '\\' ∈ new_replacement.data ∧ '\\' ∉ expandRepl new_replacement.data := by
  exact ⟨by decide, by decide, by decide, by decide⟩

/-- Claim C4: for every file content in which the matcher matches zero occurrences,
the script still writes the file with bytes identical to the original, emits the
success confirmation, and raises no error. -/
theorem c4_silent_nomatch (d : String)
    (h : occCount old_pattern_text.data d.data = 0) :
    runScript true (some d) =
      { disk := some d, mem := d, console := [successMsg],
        trace := [Op.readF, Op.subst true, Op.writeF, Op.printS successMsg],
        err := none } := by
  rw [runScript_ok, rewriteContent_of_noOcc d h]

/-- Witness for C4 at the spec's scenario: the matched block whose indentation
differs by a single space — the matcher misses it and the run is a successful
byte-identical no-op. -/
theorem c4_silent_nomatch_witness :
    occCount old_pattern_text.data nearMissContent.data = 0 ∧
    runScript true (some nearMissContent) =
      { disk := some nearMissContent, mem := nearMissContent, console := [successMsg],
        trace := [Op.readF, Op.subst true, Op.writeF, Op.printS successMsg],
        err := none } :=
  ⟨by decide, c4_silent_nomatch nearMissContent (by decide)⟩

/-- Claim C5, as stated, is false on the code: with an invalid pattern the run still
performs the read — the trace at the pattern-syntax failure already contains the
read operation, so the error is not detected before the file is read (the script
reads at lines 5-7 and only compiles the pattern inside `re.sub` at line 42). -/
theorem c5_counterexample :
    (runScript false (some "x")).trace = [Op.readF, Op.subst false] ∧
    (runScript false (some "x")).err = some ErrKind.badPattern :=
  ⟨rfl, rfl⟩

/-- Claim C5 (amended): if the matcher is not a syntactically valid pattern, the run
fails with the pattern-syntax error raised at the substitution call — after the file
has been read but before it is written: the write never happens and the on-disk
content is untouched. -/
theorem c5_pattern_error_after_read (d : String) :
    (runScript false (some d)).err = some ErrKind.badPattern ∧
    (runScript false (some d)).trace = [Op.readF, Op.subst false] ∧
    Op.writeF ∉ (runScript false (some d)).trace ∧
    (runScript false (some d)).disk = some d := by
  rw [runScript_badPattern]
  refine ⟨rfl, rfl, ?_, rfl⟩
  show Op.writeF ∉ [Op.readF, Op.subst false]
  decide

/-- Claim C6: if the matcher fails to compile, the error surfaces before any file
mutation, so the target's on-disk content (exists or not) is left exactly as it
was. -/
theorem c6_pattern_error_leaves_file (d : Option String) :
    (runScript false d).disk = d := by
  cases d with
  | none => rw [runScript_missing]
  | some d => rw [runScript_badPattern]

/-- Claim C7: on a path with no existing file the run fails with the
file-not-found error, creates no file, and prints nothing. -/
theorem c7_missing_file (patOk : Bool) :
    (runScript patOk none).err = some ErrKind.notFound ∧
    (runScript patOk none).disk = none ∧
    (runScript patOk none).console = [] := by
  rw [runScript_missing]
  exact ⟨rfl, rfl, rfl⟩

/-- Claim C8: a second run with the same matcher and replacement on the
already-rewritten file, under the precondition that the matcher no longer occurs in
the rewritten content, leaves the file's content unchanged. -/
theorem c8_idempotent_second_run (d : String)
    (h : occCount old_pattern_text.data (rewriteContent d).data = 0) :
    (runScript true ((runScript true (some d)).disk)).disk =
      (runScript true (some d)).disk := by
  have h1 : (runScript true (some d)).disk = some (rewriteContent d) := by
    rw [runScript_ok]
  rw [h1, runScript_ok, rewriteContent_of_noOcc _ h]

/-- Witness for C8 at the content consisting of exactly the matched block: after
the first rewrite the matcher is gone, and the second run changes nothing. -/
theorem c8_idempotent_second_run_witness :
    occCount old_pattern_text.data (rewriteContent old_pattern_text).data = 0 ∧
    (runScript true ((runScript true (some old_pattern_text)).disk)).disk =
      (runScript true (some old_pattern_text)).disk :=
  ⟨by decide, c8_idempotent_second_run old_pattern_text (by decide)⟩

/-- Claim C9: the script's matcher itself spans line boundaries (it contains newline
characters), a candidate match at an offset succeeds exactly when the pattern's
characters appear there verbatim — a line boundary in the content is an ordinary
character, never a terminator — and a unique occurrence, wherever it lies, is
replaced with everything around it preserved. -/
theorem c9_multiline_matching :
    ('\n' ∈ old_pattern_text.data) ∧
    (∀ pat s : List Char, ∀ i, occursAt pat s i = true ↔ ∃ t, s.drop i = pat ++ t) ∧
    (∀ pat rep content : List Char, pat ≠ [] → occCount pat content = 1 →
      ∃ pre suf, content = pre ++ pat ++ suf ∧
        subLit pat rep content = pre ++ rep ++ suf) :=
  ⟨by decide, fun pat s i => isPrefixOf_eq_true_iff pat (s.drop i),
    fun pat rep content hp h => subLit_of_unique_occ pat rep content hp h⟩

/-- Witness for C9: the pattern `"a\nb"` spans a line boundary and still matches
inside `"xa\nby"`, and the occurrence is replaced in place. -/
theorem c9_multiline_matching_witness :
    ("a\nb".data ≠ [] ∧ occCount "a\nb".data "xa\nby".data = 1) ∧
    ∃ pre suf, "xa\nby".data = pre ++ "a\nb".data ++ suf ∧
      subLit "a\nb".data "Z".data "xa\nby".data = pre ++ "Z".data ++ suf :=
  ⟨⟨by decide, by decide⟩,
    c9_multiline_matching.2.2 "a\nb".data "Z".data "xa\nby".data (by decide) (by decide)⟩

/-- Claim C10: the run is deterministic — two runs whose target file holds identical
content at read time produce identical final states (same bytes on disk, same
console output); the model takes no input besides the disk content. -/
theorem c10_deterministic (d₁ d₂ : String) (patOk : Bool) (h : d₁ = d₂) :
    runScript patOk (some d₁) = runScript patOk (some d₂) := by
  rw [h]

/-- Witness for C10 at a concrete content. -/
theorem c10_deterministic_witness :
    "x" = "x" ∧ runScript true (some "x") = runScript true (some "x") :=
  ⟨rfl, c10_deterministic "x" "x" true rfl⟩

end UpdateTui
